import Mathlib

/- Verification development for eavesarp's command-line front end
   (src/interface.py).  The Python code is shallowly embedded: pure
   functions become Lean functions, the post-parse portion of the
   `__main__` block becomes an explicit pipeline over an `Args` record,
   the file system is an explicit map from paths to file lines, and the
   one runtime failure the code can hit during list population (an
   f-string referencing the unbound name `line`) is modelled with
   `Except`.  Parts of the repository that live in eavesarp/eavesarp.py
   (not under src/) are modelled from the spec and marked as such. -/

namespace Eavesarp

/-- A file system: maps a path to the list of raw lines of the file at
that path, or `none` when no such file exists (`Path(...).exists()`). -/
abbrev FileSys := String → Option (List String)

/-- COL_MAP from src/interface.py: maps a column handle to the header
text shown for it.  A Python dict with string keys, embedded as an
insertion-ordered association list. -/
def COL_MAP : List (String × String) :=
  [("arp_count", "ARP#"),
   ("sender", "Sender"),
   ("sender_mac", "Sender MAC"),
   ("target", "Target"),
   ("target_mac", "Target MAC"),
   ("stale", "Stale"),
   ("sender_ptr", "Sender PTR (PTR > FWD)"),
   ("target_ptr", "Target PTR (PTR > FWD)"),
   ("mitm_op", "Target IP != Forward IP")]

/-- The keys of COL_MAP (`COL_MAP.keys()` in the column check). -/
def colKeys : List String := COL_MAP.map Prod.fst

/-- COL_ORDER from src/interface.py: the default column selection. -/
def COL_ORDER : List String :=
  ["arp_count", "sender", "target", "stale", "sender_ptr", "target_ptr", "mitm_op"]

/-- Python dict lookup `COL_MAP[col]`.  In Python a missing key raises
KeyError; the main flow only calls it on validated columns, so the
default branch is unreachable in the program and we return "" there. -/
def colMapGet (col : String) : String :=
  match COL_MAP.lookup col with
  | some v => v
  | none => ""

/- ===========================================================
   validate_ipv4 and the regex  ^(?:[0-9]{1,3}\.){3}[0-9]{1,3}$
   ===========================================================

   The regex engine is embedded as a deterministic matcher.  Because the
   character after each of the first three digit groups must be a dot
   (not a digit) and the last group must be followed by the end of the
   string (re's `$` also matches just before one final newline), greedy
   matching with backtracking succeeds exactly when the maximal digit
   run at each position has length 1..3 and is followed by the required
   delimiter, so the deterministic matcher below is extensionally equal
   to the Python regex. -/

/-- Consume one regex group `[0-9]{1,3}\.`: the maximal digit run must
have length 1..3 and be followed by a literal dot; return the rest. -/
def matchOctetDot (s : List Char) : Option (List Char) :=
  let run := s.takeWhile Char.isDigit
  let rest := s.dropWhile Char.isDigit
  if 1 ≤ run.length ∧ run.length ≤ 3 then
    match rest with
    | c :: r => if c = '.' then some r else none
    | [] => none
  else none

/-- Consume the final regex group `[0-9]{1,3}$`: a maximal digit run of
length 1..3 followed by the end of input; Python's `$` (without
re.MULTILINE) also matches just before a single trailing newline. -/
def matchFinal (s : List Char) : Bool :=
  let run := s.takeWhile Char.isDigit
  let rest := s.dropWhile Char.isDigit
  (decide (1 ≤ run.length) && decide (run.length ≤ 3)) &&
    (decide (rest = []) || decide (rest = [ '\n' ]))

/-- The full anchored regex ipv4_re from src/interface.py line 14. -/
def reMatchIpv4 (s : List Char) : Bool :=
  match matchOctetDot s with
  | none => false
  | some s1 =>
    match matchOctetDot s1 with
    | none => false
    | some s2 =>
      match matchOctetDot s2 with
      | none => false
      | some s3 => matchFinal s3

/-- validate_ipv4 from src/interface.py lines 52-59: returns the match
object (truthy) or False; embedded as the Bool the call sites branch
on. -/
def validate_ipv4 (val : String) : Bool := reMatchIpv4 val.data

/- ==================
   Filter list objects
   ================== -/

/-- Lists is defined in eavesarp/eavesarp.py (not under src/).  Its
shape is fully determined by its uses in src/interface.py: `white` and
`black` are Python lists of strings supporting append, +=, index,
__delitem__ and list(set(...)). -/
structure Lists where
  white : List String
  black : List String
deriving DecidableEq, Repr

/-- Modelled from the spec: `check(ip)` of the Filter component lives in
eavesarp/eavesarp.py, which is not under src/.  Spec 4.1: if the
whitelist is non-empty, membership in it is required; otherwise, if the
blacklist is non-empty, absence from it is required; otherwise
default-allow. -/
def Lists.check (l : Lists) (ip : String) : Bool :=
  if l.white ≠ [] then l.white.contains ip
  else if l.black ≠ [] then !(l.black.contains ip)
  else true

/- ===========================
   Reading addresses from files
   =========================== -/

/-- Python str.strip() whitespace set (ASCII part; the inputs here are
lines of address files). -/
def isSpaceChar (c : Char) : Bool :=
  c = ' ' || c = '\t' || c = '\n' || c = '\x0d' || c = '\x0b' || c = '\x0c'

/-- Python str.strip(): drop whitespace from both ends. -/
def pyStrip (s : String) : String :=
  ⟨((s.data.dropWhile isSpaceChar).reverse.dropWhile isSpaceChar).reverse⟩

/-- ipv4_from_file from src/interface.py lines 38-50, applied to the
lines of an already-existing file: strip each line and keep those that
validate_ipv4 accepts.  (The @validate_file_presence decorator checks
existence; every call site has already established it.) -/
def ipv4_from_file (lines : List String) : List String :=
  (lines.map pyStrip).filter validate_ipv4

/- ==========================================
   Global white/black list population (lines 445-468)
   ==========================================

   The loop `for ival in vals` appends file contents to the very list
   being iterated (`vals += ipv4_from_file(ival)`), so file-derived
   addresses are processed after the remaining original items: queue
   semantics.  The warning branch evaluates the f-string
   f'Inivalid ipv4 address and unknown file, skipping: {line}' in which
   the name `line` is unbound at this point of the program (it is first
   assigned only in the later per-argument loop), so Python raises
   NameError and the process dies; this is embedded as `Except.error`.

   The recursion is fueled: `queueWeight` is an upper bound on the
   number of iterations (each iteration consumes weight at least 1, and
   expanding a file enqueues only validated addresses of weight 1), and
   `processQueue` starts the fuel at that bound, so the fueled function
   computes exactly the Python loop. -/

/-- The NameError message for the unbound name in the warning f-string
(src/interface.py line 459). -/
def nameErrMsg : String := "NameError: name line is not defined"

/-- Iteration-count bound for one queue item. -/
def itemWeight (fs : FileSys) (v : String) : Nat :=
  if validate_ipv4 v then 1
  else
    match fs v with
    | none => 1
    | some lines => 2 + (ipv4_from_file lines).length

/-- Iteration-count bound for a whole queue. -/
def queueWeight (fs : FileSys) (q : List String) : Nat :=
  (q.map (itemWeight fs)).sum

/-- The body of the global population loop, fueled.  Valid addresses are
collected in order; a value that is not an address but is an existing
file has its validated contents enqueued at the back; anything else
raises NameError (see above). -/
def processAux (fs : FileSys) : Nat → List String → Except String (List String)
  | 0, _ => Except.ok []
  | _ + 1, [] => Except.ok []
  | fuel + 1, v :: rest =>
    if validate_ipv4 v then
      match processAux fs fuel rest with
      | Except.ok vs => Except.ok (v :: vs)
      | Except.error e => Except.error e
    else
      match fs v with
      | none => Except.error nameErrMsg
      | some lines => processAux fs fuel (rest ++ ipv4_from_file lines)

/-- The global population loop over one argument's values (lines
453-463): returns the `values` list, or the NameError. -/
def processQueue (fs : FileSys) (q : List String) : Except String (List String) :=
  processAux fs (queueWeight fs q) q

/- =======================================
   Per-argument list population (lines 470-520)
   ======================================= -/

/-- Warning printed by the per-argument loop for a value that is neither
a valid address nor an existing file (line 513). -/
def skipWarn (line : String) : String :=
  "Invalid ipv4 address and unknown file, skipping: " ++ line

/-- The per-argument population loop body (lines 506-518): for each
value, append it if it is a valid address, append the validated file
contents if it is an existing file, otherwise print a warning and
continue.  Returns (warnings printed, resulting list).  The final
`lst = list(set(lst))` at line 520 rebinds the local name only and does
not write back to the Lists object, so it is a no-op on the list and is
not modelled. -/
def argStep (fs : FileSys) (acc : List String × List String) (line : String) :
    List String × List String :=
  if validate_ipv4 line then (acc.1, acc.2 ++ [line])
  else
    match fs line with
    | none => (acc.1 ++ [skipWarn line], acc.2)
    | some lines => (acc.1, acc.2 ++ ipv4_from_file lines)

def processArgList (fs : FileSys) (lst : List String) (argVals : List String) :
    List String × List String :=
  argVals.foldl (argStep fs) ([], lst)

/- ==============================================
   Assembling the list-population phases (lines 445-520)
   ============================================== -/

/-- The command-line arguments after argparse, restricted to the fields
the post-parse logic reads.  argparse list arguments left unset are
None in Python; None and [] behave identically at every use site
(`if not vals`, `if not arg_val`), so both are embedded as []. -/
structure Args where
  cmd : Option String
  output_columns : List String
  whitelist : List String
  blacklist : List String
  sender_whitelist : List String
  target_whitelist : List String
  sender_blacklist : List String
  target_blacklist : List String
  pcap_files : List String
  sqlite_files : List String
deriving DecidableEq, Repr

/-- Global white/black list population, lines 445-468: for list_type in
['white','black'], build `values` from the argument, then append it to
that colour of BOTH sender_lists and target_lists (which start empty).
The white pass runs first; a NameError in it prevents the black pass,
which Except's bind gives us for free. -/
def globalPhase (fs : FileSys) (args : Args) : Except String (Lists × Lists) :=
  match processQueue fs args.whitelist with
  | Except.error e => Except.error e
  | Except.ok vw =>
    match processQueue fs args.blacklist with
    | Except.error e => Except.error e
    | Except.ok vb => Except.ok (⟨vw, vb⟩, ⟨vw, vb⟩)

/-- Per-argument list population, lines 470-520.  The loop dispatches on
argument names with the regex
`^(sender|target)_(whitelist|blacklist)(_files)?`; of the parsed
arguments exactly sender_whitelist, target_whitelist, sender_blacklist
and target_blacklist match (the global whitelist/blacklist do not start
with sender_ or target_), and each one appends to a distinct list, so
the dict iteration order does not affect the resulting lists.  Returns
(warnings printed, sender_lists, target_lists). -/
def perArgPhase (fs : FileSys) (args : Args) (sl tl : Lists) :
    List String × Lists × Lists :=
  let rsw := processArgList fs sl.white args.sender_whitelist
  let rtw := processArgList fs tl.white args.target_whitelist
  let rsb := processArgList fs sl.black args.sender_blacklist
  let rtb := processArgList fs tl.black args.target_blacklist
  (rsw.1 ++ rtw.1 ++ rsb.1 ++ rtb.1, ⟨rsw.2, rsb.2⟩, ⟨rtw.2, rtb.2⟩)

/- ==========================================
   Duplicate prevention between white and black (lines 526-554)
   ==========================================

   The while loop walks the white list with a counter; when the current
   white value occurs in the black list, both the white occurrence and
   the first black occurrence are deleted and the counter stays put,
   otherwise the counter advances.  Each iteration strictly decreases
   white.length - counter, so that quantity bounds the number of
   iterations and fuels the recursion; `resolveLoop` starts the fuel at
   white.length, so it computes exactly the Python loop. -/

/-- One-step-at-a-time embedding of the while loop at lines 531-551. -/
def resolveAux : Nat → Nat → List String → List String →
    List String × List String
  | 0, _, w, b => (w, b)
  | fuel + 1, counter, w, b =>
    if h : counter < w.length then
      let val := w[counter]
      if val ∈ b then resolveAux fuel counter (w.eraseIdx counter) (b.erase val)
      else resolveAux fuel (counter + 1) w b
    else (w, b)

/-- The while loop, entered with counter = 0. -/
def resolveLoop (w b : List String) : List String × List String :=
  resolveAux w.length 0 w b

/-- Lines 526-554 for one Lists object: run the while loop, then
`var.white = list(set(var.white))` and likewise for black.  Python's
set order is unspecified; `List.dedup` is one deduplication with the
same membership, which is all any later use observes. -/
def conflictResolve (l : Lists) : Lists :=
  let p := resolveLoop l.white l.black
  ⟨p.1.dedup, p.2.dedup⟩

/- ==========================
   The post-parse control flow
   ========================== -/

/-- Where the post-parse portion of `__main__` ends up.  Constructors
that carry data carry exactly what the program state holds at that
point; reaching ranAnalyze or ranCapture means the filter lists were
fully populated and conflict-resolved and the program goes on to ingest
and render. -/
inductive Outcome where
  | helpExit
  | columnsExit
  | crashed (msg : String)
  | analyzeInputExit
  | ranAnalyze (sender_lists target_lists : Lists)
  | ranCapture (sender_lists target_lists : Lists)
  | fellThrough
deriving DecidableEq, Repr

/-- The post-parse flow of src/interface.py lines 397-567: help exit for
a missing subcommand; the output-column checks (lines 406-421); global
list population (lines 445-468, can die with NameError); per-argument
population (lines 470-520); duplicate prevention (lines 526-554); then
command dispatch, where analyze requires at least one input file
(lines 563-567).  Returns (stdout lines, outcome).  Both subparsers
define output_columns, so `hasattr(args,'output_columns')` is true
exactly when a subcommand was given. -/
def mainFlow (fs : FileSys) (args : Args) : List String × Outcome :=
  match args.cmd with
  | none => ([], Outcome.helpExit)
  | some cmd =>
    if args.output_columns = [] then
      (["- Output columns are required", "Exiting!"], Outcome.columnsExit)
    else
      let bad := args.output_columns.filter (fun v => !(colKeys.contains v))
      if bad ≠ [] then
        (["- Invalid column values provided: " ++ String.intercalate "," bad,
          "- Valid values: " ++ String.intercalate "," colKeys,
          "Exiting!"], Outcome.columnsExit)
      else
        match globalPhase fs args with
        | Except.error e => ([], Outcome.crashed e)
        | Except.ok st =>
          let r := perArgPhase fs args st.1 st.2
          let sender_lists := conflictResolve r.2.1
          let target_lists := conflictResolve r.2.2
          if cmd = "analyze" then
            if args.pcap_files = [] ∧ args.sqlite_files = [] then
              (r.1 ++ ["- Analyze command requires at least one input file."],
               Outcome.analyzeInputExit)
            else (r.1, Outcome.ranAnalyze sender_lists target_lists)
          else if cmd = "capture" then
            (r.1, Outcome.ranCapture sender_lists target_lists)
          else (r.1, Outcome.fellThrough)

/- ==========================================
   Data model for the report (spec section 3)
   ==========================================

   Host and Transaction live in eavesarp/eavesarp.py (not under src/).
   Field names follow the attribute accesses visible in
   src/interface.py (`t.sender.value`, `t.sender.mac_address`,
   `t.build_stale`, `t.bfh('build_'+col, new_sender=...)`) and the
   spec's data model (section 3). -/

/-- A host row: ip value, last observed link address, cached reverse
resolution and cached forward resolution of that hostname. -/
structure Host where
  value : String
  mac_address : Option String
  ptr_hostname : Option String
  fwd_resolved_ip : Option String
deriving DecidableEq, Repr

/-- A transaction row keyed by (sender ip, target ip). -/
structure Transaction where
  sender : Host
  target : Host
  count : Nat
  stale : Bool
  mitm_op : Bool
deriving DecidableEq, Repr

/-- Modelled from the spec: a color profile (eavesarp/color.py, not
under src/) styles header and data rows; the styling functions are
opaque to the report logic. -/
structure ColorProfile where
  style_odd : List String → List String
  style_even : List String → List String
  style_header : List String → List String

/-- What get_output returns: either the explanatory message for an
empty result set, or the table handed to the external renderer
`tabulate(rows, headers=headers)`. -/
inductive Output where
  | message (s : String)
  | table (headers : List String) (rows : List (List String))
deriving DecidableEq, Repr

/-- The external renderer tabulate: consumes rows and headers; its
layouting is out of scope (spec section 2), so it is embedded as the
structured table itself. -/
def tabulate (rows : List (List String)) (headers : List String) : Output :=
  Output.table headers rows

/-- The message returned when no transactions exist (lines 71-74). -/
def noAcceptedMsg : String :=
  "- No accepted ARP requests captured\n- If this is unexpected, check your whitelist/blacklist configuration"

/-- Modelled from the spec: get_transactions lives in
eavesarp/eavesarp.py (not under src/).  A database session is embedded
as the list of Transaction rows it would yield; the order_by argument
only permutes that list and no claim depends on the order, so the
stored order is kept. -/
def get_transactions (db_session : List Transaction) : List Transaction :=
  db_session

/-- Modelled from the spec: t.build_stale(color_profile) is a method of
Transaction in eavesarp/eavesarp.py (not under src/); it renders the
stale flag as a cell. -/
def Transaction.build_stale (t : Transaction) (_cp : Option ColorProfile) : String :=
  if t.stale then "True" else ""

/-- Modelled from the spec: `t.bfh('build_'+col, new_sender=...)` is
name-based dispatch to the per-column builder methods of Transaction in
eavesarp/eavesarp.py (not under src/); spec section 9 mandates an
explicit column-to-formatter table in a reimplementation.  Each builder
renders one cell of the report from the transaction. -/
def Transaction.bfh (t : Transaction) (handle : String) (new_sender : Bool) : String :=
  if handle = "build_count" then toString t.count
  else if handle = "build_sender_mac" then
    (if new_sender then t.sender.mac_address.getD "" else "")
  else if handle = "build_target_mac" then t.target.mac_address.getD ""
  else if handle = "build_sender_ptr" then
    (if new_sender then t.sender.ptr_hostname.getD "" else "")
  else if handle = "build_target_ptr" then t.target.ptr_hostname.getD ""
  else if handle = "build_mitm_op" then (if t.mitm_op then "X" else "")
  else ""

/- =========================
   get_output (lines 62-148)
   ========================= -/

/-- The filter applied per transaction at the top of the loop (lines
85-88): `if sender_lists and not sender_lists.check(sender): continue`
and the same for the target.  A Lists object is always truthy in
Python; the None defaults of the keyword arguments are `none`. -/
def passesFilters (sender_lists target_lists : Option Lists) (t : Transaction) : Bool :=
  (match sender_lists with
   | none => true
   | some l => l.check t.sender.value) &&
  (match target_lists with
   | none => true
   | some l => l.check t.target.value)

/-- Python dict membership and subscription for rowdict, an
insertion-ordered dict from sender ip to its rows, embedded as an
association list. -/
def alookup {α : Type} (s : String) : List (String × α) → Option α
  | [] => none
  | e :: t => if e.1 = s then some e.2 else alookup s t

/-- `rowdict[sender].append(row)`: append a row to the entry with the
given key, leaving other entries alone. -/
def aappend (s : String) (row : List String) (l : List (String × List (List String))) :
    List (String × List (List String)) :=
  l.map (fun e => if e.1 = s then (e.1, e.2 ++ [row]) else e)

/-- One cell of a data row (the per-column branch at lines 96-117):
the sender cell is filled only for the first row of a sender, the
target cell is the target ip, stale uses build_stale, and every other
column renames arp_count to count and dispatches through bfh. -/
def buildCell (cp : Option ColorProfile) (t : Transaction) (new_sender : Bool)
    (col : String) : String :=
  if col = "sender" then (if new_sender then t.sender.value else "")
  else if col = "target" then t.target.value
  else if col = "stale" then t.build_stale cp
  else t.bfh ("build_" ++ (if col = "arp_count" then "count" else col)) new_sender

/-- One data row, one cell per requested column in order (lines 94-117). -/
def makeRow (columns : List String) (cp : Option ColorProfile) (t : Transaction)
    (new_sender : Bool) : List String :=
  columns.map (buildCell cp t new_sender)

/-- The body of `for t in transactions` (lines 78-120): skip filtered
transactions, then create or extend the sender's entry in rowdict. -/
def rowStep (sender_lists target_lists : Option Lists) (cp : Option ColorProfile)
    (columns : List String) (acc : List (String × List (List String)))
    (t : Transaction) : List (String × List (List String)) :=
  if passesFilters sender_lists target_lists t then
    let sender := t.sender.value
    let new_sender := (alookup sender acc).isNone
    let row := makeRow columns cp t new_sender
    if new_sender then acc ++ [(sender, [row])] else aappend sender row acc
  else acc

/-- rowdict after the whole transaction loop. -/
def buildRowdict (sender_lists target_lists : Option Lists) (cp : Option ColorProfile)
    (columns : List String) (transactions : List Transaction) :
    List (String × List (List String)) :=
  transactions.foldl (rowStep sender_lists target_lists cp columns) []

/-- Restructure rowdict into the flat row list (lines 122-138): a
counter starts at 0 and is incremented per sender; with a color profile
the odd-counter senders get style_odd and the even ones style_even,
without one the rows are appended unchanged. -/
def rowsFromRowdict (cp : Option ColorProfile)
    (rowdict : List (String × List (List String))) : List (List String) :=
  (rowdict.foldl
    (fun acc e =>
      let counter := acc.2 + 1
      match cp with
      | some p =>
        if counter % 2 = 1 then (acc.1 ++ e.2.map p.style_odd, counter)
        else (acc.1 ++ e.2.map p.style_even, counter)
      | none => (acc.1 ++ e.2, counter))
    (([] : List (List String)), 0)).1

/-- Headers and final table (lines 140-148): one header per requested
column via COL_MAP, styled when a color profile is present, then
tabulate. -/
def tableFromRowdict (cp : Option ColorProfile) (columns : List String)
    (rowdict : List (String × List (List String))) : Output :=
  let rows := rowsFromRowdict cp rowdict
  let headers := columns.map colMapGet
  let headers := match cp with
    | some p => p.style_header headers
    | none => headers
  tabulate rows headers

/-- get_output from src/interface.py lines 62-148.  The unused
signature parameters (order_by, ptr, reverse_resolve, arp_resolve) are
omitted: order_by is consumed inside get_transactions and the others
are never read in the body. -/
def get_output (db_session : List Transaction)
    (sender_lists target_lists : Option Lists)
    (color_profile : Option ColorProfile)
    (columns : List String) : Output :=
  let transactions := get_transactions db_session
  if transactions = [] then Output.message noAcceptedMsg
  else tableFromRowdict color_profile columns
    (buildRowdict sender_lists target_lists color_profile columns transactions)

/- =======================
   Resolver anomaly signal
   ======================= -/

/-- Modelled from the spec: step 2 of Resolver.enrich
(eavesarp/eavesarp.py, not under src/).  Spec 4.3: if the target's
reverse resolution succeeded, forward-resolve the returned hostname and
compare the result to target.ip; a mismatch, or a failure of the
forward step after a successful reverse step, sets mitm_op = true; if
the reverse step itself failed, mitm_op stays false.  Reverse and
forward resolution are inputs (the DNS transport is external). -/
def mitmCheck (reverseDns : String → Option String)
    (forwardDns : String → Option String) (targetIp : String) : Bool :=
  match reverseDns targetIp with
  | none => false
  | some hostname =>
    match forwardDns hostname with
    | none => true
    | some ip => ip ≠ targetIp

/- ==========================================================
   Specification-side predicates (stated from the spec's words)
   ========================================================== -/

/-- Split a character list at every dot (spec side: "dot-separated"). -/
def dotSplit : List Char → List (List Char)
  | [] => [[]]
  | c :: rest =>
    if c = '.' then [] :: dotSplit rest
    else
      match dotSplit rest with
      | [] => [[c]]
      | h :: t => (c :: h) :: t

/-- Rejoin what dotSplit separated (inverse of dotSplit, used to relate
the spec-side split to the embedded matcher). -/
def joinDots : List (List Char) → List Char
  | [] => []
  | [x] => x
  | x :: xs => x ++ '.' :: joinDots xs

/-- Remove one trailing newline if present (re's `$` tolerance). -/
def stripTrailingNewline (l : List Char) : List Char :=
  match l.reverse with
  | [] => l
  | c :: t => if c = '\n' then t.reverse else l

/-- A run of one to three decimal digits. -/
def isOctetRun (l : List Char) : Bool :=
  decide (1 ≤ l.length) && decide (l.length ≤ 3) && l.all Char.isDigit

/-- The amended pattern for C6: after tolerating one trailing newline,
the value consists of exactly four dot-separated runs of one to three
decimal digits; the numeric value of each run is NOT range-checked. -/
def loosePattern (s : String) : Bool :=
  let parts := dotSplit (stripTrailingNewline s.data)
  decide (parts.length = 4) && parts.all isOctetRun

/-- Numeric value of a digit run. -/
def digitsVal (l : List Char) : Nat :=
  l.foldl (fun a c => 10 * a + (c.toNat - 48)) 0

/-- C6 as stated: a strict dotted-quad IPv4 address, i.e. four
dot-separated decimal octets each in the range 0-255. -/
def isStrictDottedQuad (s : String) : Bool :=
  let parts := dotSplit s.data
  decide (parts.length = 4) &&
    parts.all (fun p => isOctetRun p && decide (digitsVal p ≤ 255))

/-- The filter-list invariant of C1: white and black share no element
and neither contains duplicates. -/
def ListsOk (l : Lists) : Prop :=
  (∀ x ∈ l.white, x ∉ l.black) ∧ l.white.Nodup ∧ l.black.Nodup

/-- Length of the row list held under an optional rowdict entry. -/
def optLen : Option (List (List String)) → Nat
  | none => 0
  | some l => l.length

/-- The sender-grouping property of one rowdict entry (C8): the entry
is a nonempty block of rows and, wherever the requested columns say
"sender", the first row of the block carries the sender ip and every
later row carries the empty cell. -/
def senderCellsOk (columns : List String) (e : String × List (List String)) : Prop :=
  e.2 ≠ [] ∧
  ∀ j : Nat, ∀ h : j < columns.length, columns[j] = "sender" →
    (∀ r0, e.2.head? = some r0 → r0[j]? = some e.1) ∧
    (∀ r ∈ e.2.tail, r[j]? = some "")

/- ========
   Theorems
   ======== -/

lemma foldl_rowStep_filter (sender_lists target_lists : Option Lists)
    (cp : Option ColorProfile) (columns : List String) :
    ∀ (ts : List Transaction) (acc : List (String × List (List String))),
      ts.foldl (rowStep sender_lists target_lists cp columns) acc =
        (ts.filter (passesFilters sender_lists target_lists)).foldl
          (rowStep sender_lists target_lists cp columns) acc := by
  intro ts
  induction ts with
  | nil => intro acc; rfl
  | cons t ts ih =>
    intro acc
    by_cases h : passesFilters sender_lists target_lists t = true
    · simp only [List.foldl_cons, List.filter_cons, h, ite_true, ih]
    · have hstep : rowStep sender_lists target_lists cp columns acc t = acc := by
        simp [rowStep, h]
      simp only [List.foldl_cons, List.filter_cons, h, hstep, ih]
      simp

/-- C10: get_output excludes from its rendered table every transaction
whose sender address fails sender_lists.check or whose target address
fails target_lists.check, even when that transaction is present in the
database session: the output equals the one computed from the
transactions pre-filtered by those checks, so filtering is re-applied
at render time. -/
theorem get_output_refilters_at_render (db_session : List Transaction)
    (sender_lists target_lists : Option Lists) (cp : Option ColorProfile)
    (columns : List String) :
    get_output db_session sender_lists target_lists cp columns =
      if get_transactions db_session = [] then Output.message noAcceptedMsg
      else tableFromRowdict cp columns
        (buildRowdict sender_lists target_lists cp columns
          ((get_transactions db_session).filter
            (passesFilters sender_lists target_lists))) := by
  by_cases h : get_transactions db_session = []
  · simp [get_output, h]
  · simp only [get_output, buildRowdict, h, ite_false]
    conv_lhs => rw [foldl_rowStep_filter]

/-- C7: for every database session from which get_transactions returns
no transactions, get_output returns the explanatory message (no
accepted ARP requests; check your whitelist/blacklist configuration)
instead of a table; being a total function, it raises nothing. -/
theorem get_output_empty_message (db_session : List Transaction)
    (sender_lists target_lists : Option Lists) (cp : Option ColorProfile)
    (columns : List String) (h : get_transactions db_session = []) :
    get_output db_session sender_lists target_lists cp columns =
      Output.message noAcceptedMsg := by
  simp [get_output, h]

theorem get_output_empty_message_witness :
    get_output [] none none none COL_ORDER = Output.message noAcceptedMsg :=
  get_output_empty_message [] none none none COL_ORDER rfl

/-- C3: mitm_op is true iff the target's reverse resolution succeeds
and the subsequent forward resolution of the returned hostname either
fails or yields an address different from target.ip; whenever the
reverse resolution itself fails, mitm_op is false. -/
theorem mitm_op_iff_resolution_mismatch (reverseDns forwardDns : String → Option String)
    (targetIp : String) :
    (mitmCheck reverseDns forwardDns targetIp = true ↔
      ∃ hostname, reverseDns targetIp = some hostname ∧
        (forwardDns hostname = none ∨
         ∃ addr, forwardDns hostname = some addr ∧ addr ≠ targetIp)) ∧
    (reverseDns targetIp = none → mitmCheck reverseDns forwardDns targetIp = false) := by
  constructor
  · unfold mitmCheck
    cases hrev : reverseDns targetIp with
    | none => simp
    | some hostname =>
      cases hfwd : forwardDns hostname with
      | none => simp [hfwd]
      | some addr => simp [hfwd]
  · intro hrev
    unfold mitmCheck
    rw [hrev]

theorem mitm_op_iff_resolution_mismatch_witness :
    mitmCheck (fun _ => some "printer.local") (fun _ => some "10.0.0.50") "10.0.0.9" = true :=
  (mitm_op_iff_resolution_mismatch (fun _ => some "printer.local")
      (fun _ => some "10.0.0.50") "10.0.0.9").1.mpr
    ⟨"printer.local", rfl, Or.inr ⟨"10.0.0.50", rfl, by decide⟩⟩

/-- C2 (code bug evidence): supplying a value to the global --whitelist
argument that is neither a valid IPv4 address nor an existing file does
NOT produce the warn-and-continue behaviour: evaluating the warning
f-string dereferences the unbound name `line` (src/interface.py line
459), so the program dies with a NameError instead of skipping the
value.  The per-argument loop (lines 506-518) does warn and continue;
only the global loop is broken. -/
theorem global_list_population_name_error :
    mainFlow (fun _ => none)
      { cmd := some "capture", output_columns := COL_ORDER,
        whitelist := ["not-an-address"], blacklist := [],
        sender_whitelist := [], target_whitelist := [],
        sender_blacklist := [], target_blacklist := [],
        pcap_files := [], sqlite_files := [] } =
      ([], Outcome.crashed nameErrMsg) := by
  rfl

/-- C6 (counterexample): validate_ipv4 accepts "999.0.0.0" although its
first octet is out of the 0-255 range, so acceptance is not equivalent
to being a strict dotted-quad IPv4 address. -/
theorem validate_ipv4_accepts_out_of_range_octet :
    validate_ipv4 "999.0.0.0" = true ∧ isStrictDottedQuad "999.0.0.0" = false := by
  constructor
  · rfl
  · rfl

lemma one_le_itemWeight (fs : FileSys) (v : String) : 1 ≤ itemWeight fs v := by
  unfold itemWeight
  split
  · omega
  · split <;> omega

lemma queueWeight_cons (fs : FileSys) (v : String) (q : List String) :
    queueWeight fs (v :: q) = itemWeight fs v + queueWeight fs q := by
  simp [queueWeight]

lemma queueWeight_append (fs : FileSys) (q1 q2 : List String) :
    queueWeight fs (q1 ++ q2) = queueWeight fs q1 + queueWeight fs q2 := by
  simp [queueWeight]

lemma queueWeight_of_all_valid (fs : FileSys) (q : List String)
    (h : ∀ v ∈ q, validate_ipv4 v = true) : queueWeight fs q = q.length := by
  induction q with
  | nil => rfl
  | cons v q ih =>
    have hv : validate_ipv4 v = true := h v (List.mem_cons_self v q)
    rw [queueWeight_cons, ih (fun x hx => h x (List.mem_cons_of_mem v hx))]
    simp only [itemWeight, hv, if_true, List.length_cons]
    omega

lemma mem_ipv4_from_file_valid (lines : List String) (v : String)
    (h : v ∈ ipv4_from_file lines) : validate_ipv4 v = true :=
  List.of_mem_filter h

lemma processAux_ok_mem (fs : FileSys) :
    ∀ (fuel : Nat) (q : List String) (vs : List String),
      queueWeight fs q ≤ fuel → processAux fs fuel q = Except.ok vs →
      ∀ v ∈ q, validate_ipv4 v = true → v ∈ vs := by
  intro fuel
  induction fuel with
  | zero =>
    intro q vs hw _ v hv _
    cases q with
    | nil => cases hv
    | cons a q =>
      exfalso
      have := one_le_itemWeight fs a
      rw [queueWeight_cons] at hw
      omega
  | succ fuel ih =>
    intro q vs hw hok v hv hval
    cases q with
    | nil => cases hv
    | cons a rest =>
      rw [queueWeight_cons] at hw
      by_cases ha : validate_ipv4 a = true
      · simp only [processAux, ha, if_true] at hok
        cases hrec : processAux fs fuel rest with
        | error e => rw [hrec] at hok; cases hok
        | ok vs0 =>
          rw [hrec] at hok
          cases hok
          have hwa : itemWeight fs a = 1 := by simp [itemWeight, ha]
          rcases List.mem_cons.mp hv with h | h
          · subst h; exact List.mem_cons_self _ _
          · exact List.mem_cons_of_mem _ (ih rest vs0 (by omega) hrec v h hval)
      · simp only [processAux, ha, if_false, Bool.false_eq_true] at hok
        cases hfa : fs a with
        | none => rw [hfa] at hok; cases hok
        | some lines =>
          rw [hfa] at hok
          have hwa : itemWeight fs a = 2 + (ipv4_from_file lines).length := by
            simp [itemWeight, ha, hfa]
          have hwrest : queueWeight fs (rest ++ ipv4_from_file lines) ≤ fuel := by
            rw [queueWeight_append,
              queueWeight_of_all_valid fs (ipv4_from_file lines)
                (fun x hx => mem_ipv4_from_file_valid lines x hx)]
            omega
          rcases List.mem_cons.mp hv with h | h
          · subst h; rw [hval] at ha; cases ha rfl
          · exact ih _ vs hwrest hok v (List.mem_append_left _ h) hval

lemma processAux_ok_file_mem (fs : FileSys) :
    ∀ (fuel : Nat) (q : List String) (vs : List String),
      queueWeight fs q ≤ fuel → processAux fs fuel q = Except.ok vs →
      ∀ p ∈ q, validate_ipv4 p = false →
      ∀ lines, fs p = some lines → ∀ v ∈ ipv4_from_file lines, v ∈ vs := by
  intro fuel
  induction fuel with
  | zero =>
    intro q vs hw _ p hp _ _ _ _ _
    cases q with
    | nil => cases hp
    | cons a q =>
      exfalso
      have := one_le_itemWeight fs a
      rw [queueWeight_cons] at hw
      omega
  | succ fuel ih =>
    intro q vs hw hok p hp hpval lines hlines v hvmem
    cases q with
    | nil => cases hp
    | cons a rest =>
      rw [queueWeight_cons] at hw
      by_cases ha : validate_ipv4 a = true
      · simp only [processAux, ha, if_true] at hok
        cases hrec : processAux fs fuel rest with
        | error e => rw [hrec] at hok; cases hok
        | ok vs0 =>
          rw [hrec] at hok
          cases hok
          have hwa : itemWeight fs a = 1 := by simp [itemWeight, ha]
          rcases List.mem_cons.mp hp with h | h
          · subst h; rw [hpval] at ha; cases ha
          · exact List.mem_cons_of_mem _
              (ih rest vs0 (by omega) hrec p h hpval lines hlines v hvmem)
      · simp only [processAux, ha, if_false, Bool.false_eq_true] at hok
        cases hfa : fs a with
        | none => rw [hfa] at hok; cases hok
        | some lines0 =>
          rw [hfa] at hok
          have hwa : itemWeight fs a = 2 + (ipv4_from_file lines0).length := by
            simp [itemWeight, ha, hfa]
          have hwrest : queueWeight fs (rest ++ ipv4_from_file lines0) ≤ fuel := by
            rw [queueWeight_append,
              queueWeight_of_all_valid fs (ipv4_from_file lines0)
                (fun x hx => mem_ipv4_from_file_valid lines0 x hx)]
            omega
          rcases List.mem_cons.mp hp with h | h
          · subst h
            rw [hlines] at hfa
            cases hfa
            exact processAux_ok_mem fs fuel _ vs hwrest hok v
              (List.mem_append_right _ hvmem) (mem_ipv4_from_file_valid _ v hvmem)
          · exact ih _ vs hwrest hok p (List.mem_append_left _ h) hpval lines hlines v hvmem

lemma processAux_ok_exists (fs : FileSys) :
    ∀ (fuel : Nat) (q : List String),
      queueWeight fs q ≤ fuel →
      (∀ v ∈ q, validate_ipv4 v = true ∨ (fs v).isSome) →
      ∃ vs, processAux fs fuel q = Except.ok vs := by
  intro fuel
  induction fuel with
  | zero => intro q _ _; exact ⟨[], rfl⟩
  | succ fuel ih =>
    intro q hw hq
    cases q with
    | nil => exact ⟨[], rfl⟩
    | cons a rest =>
      rw [queueWeight_cons] at hw
      by_cases ha : validate_ipv4 a = true
      · have hwa : itemWeight fs a = 1 := by simp [itemWeight, ha]
        obtain ⟨vs, hvs⟩ := ih rest (by omega)
          (fun x hx => hq x (List.mem_cons_of_mem a hx))
        refine ⟨a :: vs, ?_⟩
        simp only [processAux, ha, if_true, hvs]
      · cases hfa : fs a with
        | none =>
          exfalso
          rcases hq a (List.mem_cons_self a rest) with h | h
          · exact ha h
          · rw [hfa] at h; cases h
        | some lines =>
          have hwa : itemWeight fs a = 2 + (ipv4_from_file lines).length := by
            simp [itemWeight, ha, hfa]
          have hwrest : queueWeight fs (rest ++ ipv4_from_file lines) ≤ fuel := by
            rw [queueWeight_append,
              queueWeight_of_all_valid fs (ipv4_from_file lines)
                (fun x hx => mem_ipv4_from_file_valid lines x hx)]
            omega
          have hq2 : ∀ x ∈ rest ++ ipv4_from_file lines,
              validate_ipv4 x = true ∨ (fs x).isSome := by
            intro x hx
            rcases List.mem_append.mp hx with h | h
            · exact hq x (List.mem_cons_of_mem a h)
            · exact Or.inl (mem_ipv4_from_file_valid lines x h)
          obtain ⟨vs, hvs⟩ := ih (rest ++ ipv4_from_file lines) hwrest hq2
          refine ⟨vs, ?_⟩
          simp only [processAux, ha, if_false, hfa, hvs, Bool.false_eq_true]

lemma processQueue_ok_mem (fs : FileSys) (q vs : List String)
    (hok : processQueue fs q = Except.ok vs) :
    ∀ v ∈ q, validate_ipv4 v = true → v ∈ vs :=
  processAux_ok_mem fs (queueWeight fs q) q vs (Nat.le_refl _) hok

lemma processQueue_ok_file_mem (fs : FileSys) (q vs : List String)
    (hok : processQueue fs q = Except.ok vs) :
    ∀ p ∈ q, validate_ipv4 p = false →
    ∀ lines, fs p = some lines → ∀ v ∈ ipv4_from_file lines, v ∈ vs :=
  processAux_ok_file_mem fs (queueWeight fs q) q vs (Nat.le_refl _) hok

lemma processQueue_ok_exists (fs : FileSys) (q : List String)
    (hq : ∀ v ∈ q, validate_ipv4 v = true ∨ (fs v).isSome) :
    ∃ vs, processQueue fs q = Except.ok vs :=
  processAux_ok_exists fs (queueWeight fs q) q (Nat.le_refl _) hq

/-- C9: when the global list population completes, every syntactically
valid address supplied to --whitelist (directly, or inside a supplied
address file) is in the white list of BOTH sender_lists and
target_lists, and likewise every such --blacklist value is in both
black lists, before conflict resolution runs. -/
theorem global_lists_populate_both (fs : FileSys) (args : Args)
    (sender_lists target_lists : Lists)
    (hok : globalPhase fs args = Except.ok (sender_lists, target_lists)) :
    (∀ v ∈ args.whitelist, validate_ipv4 v = true →
       v ∈ sender_lists.white ∧ v ∈ target_lists.white) ∧
    (∀ p ∈ args.whitelist, validate_ipv4 p = false → ∀ lines, fs p = some lines →
       ∀ v ∈ ipv4_from_file lines, v ∈ sender_lists.white ∧ v ∈ target_lists.white) ∧
    (∀ v ∈ args.blacklist, validate_ipv4 v = true →
       v ∈ sender_lists.black ∧ v ∈ target_lists.black) ∧
    (∀ p ∈ args.blacklist, validate_ipv4 p = false → ∀ lines, fs p = some lines →
       ∀ v ∈ ipv4_from_file lines, v ∈ sender_lists.black ∧ v ∈ target_lists.black) := by
  unfold globalPhase at hok
  cases hw : processQueue fs args.whitelist with
  | error e => rw [hw] at hok; cases hok
  | ok vw =>
    rw [hw] at hok
    cases hb : processQueue fs args.blacklist with
    | error e => rw [hb] at hok; cases hok
    | ok vb =>
      rw [hb] at hok
      cases hok
      refine ⟨?_, ?_, ?_, ?_⟩
      · intro v hv hval
        exact ⟨processQueue_ok_mem fs _ _ hw v hv hval,
               processQueue_ok_mem fs _ _ hw v hv hval⟩
      · intro p hp hpval lines hlines v hv
        exact ⟨processQueue_ok_file_mem fs _ _ hw p hp hpval lines hlines v hv,
               processQueue_ok_file_mem fs _ _ hw p hp hpval lines hlines v hv⟩
      · intro v hv hval
        exact ⟨processQueue_ok_mem fs _ _ hb v hv hval,
               processQueue_ok_mem fs _ _ hb v hv hval⟩
      · intro p hp hpval lines hlines v hv
        exact ⟨processQueue_ok_file_mem fs _ _ hb p hp hpval lines hlines v hv,
               processQueue_ok_file_mem fs _ _ hb p hp hpval lines hlines v hv⟩

theorem global_lists_populate_both_witness :
    ("10.0.0.1" ∈ (Lists.mk ["10.0.0.1", "10.0.0.7"] ["9.9.9.9"]).white ∧
     "10.0.0.1" ∈ (Lists.mk ["10.0.0.1", "10.0.0.7"] ["9.9.9.9"]).white) ∧
    ("10.0.0.7" ∈ (Lists.mk ["10.0.0.1", "10.0.0.7"] ["9.9.9.9"]).white ∧
     "10.0.0.7" ∈ (Lists.mk ["10.0.0.1", "10.0.0.7"] ["9.9.9.9"]).white) ∧
    ("9.9.9.9" ∈ (Lists.mk ["10.0.0.1", "10.0.0.7"] ["9.9.9.9"]).black ∧
     "9.9.9.9" ∈ (Lists.mk ["10.0.0.1", "10.0.0.7"] ["9.9.9.9"]).black) := by
  have h := global_lists_populate_both
    (fun p => if p = "wfile" then some ["10.0.0.7\n"] else none)
    { cmd := some "capture", output_columns := COL_ORDER,
      whitelist := ["10.0.0.1", "wfile"], blacklist := ["9.9.9.9"],
      sender_whitelist := [], target_whitelist := [],
      sender_blacklist := [], target_blacklist := [],
      pcap_files := [], sqlite_files := [] }
    (Lists.mk ["10.0.0.1", "10.0.0.7"] ["9.9.9.9"])
    (Lists.mk ["10.0.0.1", "10.0.0.7"] ["9.9.9.9"]) (by rfl)
  exact ⟨h.1 "10.0.0.1" (by decide) (by rfl),
         h.2.1 "wfile" (by decide) (by rfl) ["10.0.0.7\n"] (by rfl)
           "10.0.0.7" (by decide),
         h.2.2.1 "9.9.9.9" (by decide) (by rfl)⟩

/-- C4: whenever the parsed arguments carry an output_columns value
that is empty or contains a name outside the COL_MAP keys, the
post-parse flow prints a diagnostic and stops with columnsExit, an
outcome reached before the list-population, ingestion or rendering
stages of the pipeline run. -/
theorem invalid_columns_exit_before_processing (fs : FileSys) (args : Args)
    (c : String) (hcmd : args.cmd = some c)
    (hbad : args.output_columns = [] ∨ ∃ v ∈ args.output_columns, v ∉ colKeys) :
    ∃ msgs, mainFlow fs args = (msgs, Outcome.columnsExit) ∧ msgs ≠ [] := by
  unfold mainFlow
  rw [hcmd]
  dsimp only
  rcases hbad with hempty | ⟨v, hv, hnk⟩
  · rw [if_pos hempty]
    exact ⟨_, rfl, by simp⟩
  · have hne : ¬ args.output_columns = [] := by
      intro h; rw [h] at hv; cases hv
    rw [if_neg hne]
    have hvbad : v ∈ args.output_columns.filter (fun v => !(colKeys.contains v)) := by
      rw [List.mem_filter]
      refine ⟨hv, ?_⟩
      simp only [Bool.not_eq_true']
      rw [← Bool.not_eq_true]
      intro hcont
      exact hnk (List.elem_iff.mp hcont)
    have hfilter : args.output_columns.filter (fun v => !(colKeys.contains v)) ≠ [] :=
      List.ne_nil_of_mem hvbad
    rw [if_pos hfilter]
    exact ⟨_, rfl, by simp⟩

theorem invalid_columns_exit_before_processing_witness :
    ∃ msgs,
      mainFlow (fun _ => none)
        { cmd := some "analyze", output_columns := ["bogus", "sender"],
          whitelist := [], blacklist := [],
          sender_whitelist := [], target_whitelist := [],
          sender_blacklist := [], target_blacklist := [],
          pcap_files := [], sqlite_files := [] } = (msgs, Outcome.columnsExit) ∧
      msgs ≠ [] :=
  invalid_columns_exit_before_processing (fun _ => none) _ "analyze" rfl
    (Or.inr ⟨"bogus", by decide, by decide⟩)

/-- C5: in analyze mode with a valid column selection and filter-list
arguments that do not trip the NameError of the global loop, if neither
a pcap input file nor an sqlite input file is supplied, the flow prints
the missing-input diagnostic and stops with analyzeInputExit, before
ingestion (analyze) or rendering runs. -/
theorem analyze_without_inputs_exits (fs : FileSys) (args : Args)
    (hcmd : args.cmd = some "analyze")
    (hcne : args.output_columns ≠ [])
    (hcok : ∀ v ∈ args.output_columns, v ∈ colKeys)
    (hglob : ∀ v ∈ args.whitelist ++ args.blacklist,
       validate_ipv4 v = true ∨ (fs v).isSome)
    (hpcap : args.pcap_files = []) (hsq : args.sqlite_files = []) :
    ∃ msgs, mainFlow fs args = (msgs, Outcome.analyzeInputExit) ∧
      "- Analyze command requires at least one input file." ∈ msgs := by
  unfold mainFlow
  rw [hcmd]
  dsimp only
  rw [if_neg hcne]
  have hfilter : args.output_columns.filter (fun v => !(colKeys.contains v)) = [] := by
    rw [List.filter_eq_nil_iff]
    intro v hv
    simp only [Bool.not_eq_true', Bool.not_eq_false]
    exact List.elem_iff.mpr (hcok v hv)
  rw [if_neg (by rw [hfilter]; exact fun h => h rfl)]
  obtain ⟨vw, hvw⟩ := processQueue_ok_exists fs args.whitelist
    (fun v hv => hglob v (List.mem_append_left _ hv))
  obtain ⟨vb, hvb⟩ := processQueue_ok_exists fs args.blacklist
    (fun v hv => hglob v (List.mem_append_right _ hv))
  have hphase : globalPhase fs args = Except.ok (⟨vw, vb⟩, ⟨vw, vb⟩) := by
    unfold globalPhase
    rw [hvw, hvb]
  rw [hphase]
  simp only [if_pos rfl, hpcap, hsq, and_self, if_true]
  exact ⟨_, rfl, List.mem_append_right _ (List.mem_cons_self _ _)⟩

theorem analyze_without_inputs_exits_witness :
    ∃ msgs,
      mainFlow (fun _ => none)
        { cmd := some "analyze", output_columns := COL_ORDER,
          whitelist := ["10.0.0.1"], blacklist := [],
          sender_whitelist := [], target_whitelist := [],
          sender_blacklist := [], target_blacklist := [],
          pcap_files := [], sqlite_files := [] } =
        (msgs, Outcome.analyzeInputExit) ∧
      "- Analyze command requires at least one input file." ∈ msgs :=
  analyze_without_inputs_exits (fun _ => none) _ rfl (by decide) (by decide)
    (by intro v hv
        simp only [List.append_nil, List.mem_singleton] at hv
        subst hv
        exact Or.inl rfl)
    rfl rfl

lemma take_eraseIdx (w : List String) (c : Nat) :
    (w.eraseIdx c).take c = w.take c := by
  induction w generalizing c with
  | nil => rfl
  | cons a w ih =>
    cases c with
    | zero => rfl
    | succ c => simp only [List.eraseIdx_cons_succ, List.take_succ_cons, ih]

lemma resolveAux_disjoint :
    ∀ (fuel counter : Nat) (w b : List String),
      w.length - counter ≤ fuel →
      (∀ x ∈ w.take counter, x ∉ b) →
      ∀ x ∈ (resolveAux fuel counter w b).1, x ∉ (resolveAux fuel counter w b).2 := by
  intro fuel
  induction fuel with
  | zero =>
    intro counter w b hm hinv
    have hlen : w.length ≤ counter := by omega
    simpa [resolveAux, List.take_of_length_le hlen] using hinv
  | succ fuel ih =>
    intro counter w b hm hinv
    by_cases h : counter < w.length
    · simp only [resolveAux, dif_pos h]
      by_cases hval : w[counter] ∈ b
      · simp only [if_pos hval]
        refine ih counter (w.eraseIdx counter) (b.erase w[counter]) ?_ ?_
        · rw [List.length_eraseIdx_of_lt h]; omega
        · intro x hx hxe
          rw [take_eraseIdx] at hx
          exact hinv x hx (List.mem_of_mem_erase hxe)
      · simp only [if_neg hval]
        refine ih (counter + 1) w b (by omega) ?_
        intro x hx
        rw [List.take_succ] at hx
        rcases List.mem_append.mp hx with hx1 | hx2
        · exact hinv x hx1
        · have : x = w[counter] := by
            rw [List.getElem?_eq_getElem h] at hx2
            simpa using hx2
          rw [this]
          exact hval
    · have hlen : w.length ≤ counter := by omega
      simpa [resolveAux, dif_neg h, List.take_of_length_le hlen] using hinv

lemma conflictResolve_ok (l : Lists) : ListsOk (conflictResolve l) := by
  unfold ListsOk conflictResolve resolveLoop
  refine ⟨?_, List.nodup_dedup _, List.nodup_dedup _⟩
  intro x hx hxb
  rw [List.mem_dedup] at hx hxb
  exact resolveAux_disjoint l.white.length 0 l.white l.black
    (by omega) (by intro y hy; cases hy) x hx hxb

/-- C1: after the command-line list-population and conflict-resolution
phase completes (the flow reached the analyze or the capture stage),
each of sender_lists and target_lists satisfies the filter invariant:
its white and black lists share no element and neither contains a
duplicate, whatever sequence of add operations the arguments and
address files induced. -/
theorem filter_lists_invariant_after_resolution (fs : FileSys) (args : Args)
    (out : List String) (sender_lists target_lists : Lists)
    (h : mainFlow fs args = (out, Outcome.ranAnalyze sender_lists target_lists) ∨
         mainFlow fs args = (out, Outcome.ranCapture sender_lists target_lists)) :
    ListsOk sender_lists ∧ ListsOk target_lists := by
  have key : ∀ o : Outcome,
      (∃ msgs, mainFlow fs args = (msgs, o)) →
      (o = Outcome.ranAnalyze sender_lists target_lists ∨
       o = Outcome.ranCapture sender_lists target_lists) →
      ListsOk sender_lists ∧ ListsOk target_lists := by
    intro o ⟨msgs, hmf⟩ ho
    unfold mainFlow at hmf
    cases hcmd : args.cmd with
    | none =>
      rw [hcmd] at hmf
      cases hmf
      rcases ho with ho | ho <;> cases ho
    | some cmd =>
      rw [hcmd] at hmf
      dsimp only at hmf
      by_cases h1 : args.output_columns = []
      · rw [if_pos h1] at hmf
        cases hmf
        rcases ho with ho | ho <;> cases ho
      · rw [if_neg h1] at hmf
        by_cases h2 : args.output_columns.filter (fun v => !(colKeys.contains v)) ≠ []
        · rw [if_pos h2] at hmf
          cases hmf
          rcases ho with ho | ho <;> cases ho
        · rw [if_neg h2] at hmf
          cases hgp : globalPhase fs args with
          | error e =>
            rw [hgp] at hmf
            cases hmf
            rcases ho with ho | ho <;> cases ho
          | ok st =>
            rw [hgp] at hmf
            dsimp only at hmf
            by_cases h3 : cmd = "analyze"
            · rw [if_pos h3] at hmf
              by_cases h4 : args.pcap_files = [] ∧ args.sqlite_files = []
              · rw [if_pos h4] at hmf
                cases hmf
                rcases ho with ho | ho <;> cases ho
              · rw [if_neg h4] at hmf
                cases hmf
                rcases ho with ho | ho
                · cases ho
                  exact ⟨conflictResolve_ok _, conflictResolve_ok _⟩
                · cases ho
            · rw [if_neg h3] at hmf
              by_cases h5 : cmd = "capture"
              · rw [if_pos h5] at hmf
                cases hmf
                rcases ho with ho | ho
                · cases ho
                · cases ho
                  exact ⟨conflictResolve_ok _, conflictResolve_ok _⟩
              · rw [if_neg h5] at hmf
                cases hmf
                rcases ho with ho | ho <;> cases ho
  rcases h with h | h
  · exact key (Outcome.ranAnalyze sender_lists target_lists) ⟨out, h⟩ (Or.inl rfl)
  · exact key (Outcome.ranCapture sender_lists target_lists) ⟨out, h⟩ (Or.inr rfl)

theorem filter_lists_invariant_after_resolution_witness :
    ListsOk (Lists.mk ["10.0.0.2"] []) ∧ ListsOk (Lists.mk [] []) :=
  filter_lists_invariant_after_resolution (fun _ => none)
    { cmd := some "capture", output_columns := COL_ORDER,
      whitelist := [], blacklist := [],
      sender_whitelist := ["10.0.0.1", "10.0.0.2", "10.0.0.2"],
      target_whitelist := [],
      sender_blacklist := ["10.0.0.1"], target_blacklist := [],
      pcap_files := [], sqlite_files := [] }
    [] (Lists.mk ["10.0.0.2"] []) (Lists.mk [] []) (Or.inr (by rfl))

lemma digit_ne_dot (c : Char) (h : Char.isDigit c = true) : ¬ c = '.' := by
  intro hc
  subst hc
  exact absurd h (by decide)

lemma digit_ne_newline (c : Char) (h : Char.isDigit c = true) : ¬ c = '\n' := by
  intro hc
  subst hc
  exact absurd h (by decide)

lemma takeWhile_all_eq (p : Char → Bool) (run : List Char)
    (hall : ∀ x ∈ run, p x = true) :
    run.takeWhile p = run ∧ run.dropWhile p = [] := by
  induction run with
  | nil => exact ⟨rfl, rfl⟩
  | cons a run ih =>
    have ha : p a = true := hall a (List.mem_cons_self a run)
    have ih2 := ih (fun x hx => hall x (List.mem_cons_of_mem a hx))
    rw [List.takeWhile_cons, List.dropWhile_cons]
    simp [ha, ih2.1, ih2.2]

lemma takeWhile_append_eq (p : Char → Bool) (run : List Char) (c : Char)
    (r : List Char) (hall : ∀ x ∈ run, p x = true) (hc : p c = false) :
    (run ++ c :: r).takeWhile p = run ∧ (run ++ c :: r).dropWhile p = c :: r := by
  induction run with
  | nil =>
    rw [List.nil_append, List.takeWhile_cons, List.dropWhile_cons]
    simp [hc]
  | cons a run ih =>
    have ha : p a = true := hall a (List.mem_cons_self a run)
    have ih2 := ih (fun x hx => hall x (List.mem_cons_of_mem a hx))
    rw [List.cons_append, List.takeWhile_cons, List.dropWhile_cons]
    simp [ha, ih2.1, ih2.2]

lemma matchOctetDot_some_iff (s r : List Char) :
    matchOctetDot s = some r ↔
      ∃ run, (∀ x ∈ run, Char.isDigit x = true) ∧
        1 ≤ run.length ∧ run.length ≤ 3 ∧ s = run ++ '.' :: r := by
  constructor
  · intro h
    unfold matchOctetDot at h
    by_cases hcond : 1 ≤ (s.takeWhile Char.isDigit).length ∧
        (s.takeWhile Char.isDigit).length ≤ 3
    · rw [if_pos hcond] at h
      cases hrest : s.dropWhile Char.isDigit with
      | nil => rw [hrest] at h; cases h
      | cons c0 r0 =>
        rw [hrest] at h
        dsimp only at h
        by_cases hc0 : c0 = '.'
        · rw [if_pos hc0] at h
          injection h with h
          subst h
          subst hc0
          refine ⟨s.takeWhile Char.isDigit,
            (fun x hx => List.mem_takeWhile_imp hx), hcond.1, hcond.2, ?_⟩
          conv_lhs => rw [← List.takeWhile_append_dropWhile (p := Char.isDigit) (l := s)]
          rw [hrest]
        · rw [if_neg hc0] at h; cases h
    · rw [if_neg hcond] at h; cases h
  · rintro ⟨run, hall, h1, h3, hs⟩
    subst hs
    have t := takeWhile_append_eq Char.isDigit run '.' r hall (by decide)
    unfold matchOctetDot
    rw [t.1, t.2, if_pos ⟨h1, h3⟩]
    dsimp only
    rw [if_pos rfl]

lemma matchFinal_true_iff (s : List Char) :
    matchFinal s = true ↔
      ∃ run, (∀ x ∈ run, Char.isDigit x = true) ∧
        1 ≤ run.length ∧ run.length ≤ 3 ∧
        (s = run ∨ s = run ++ [ '\n' ]) := by
  unfold matchFinal
  simp only [Bool.and_eq_true, Bool.or_eq_true, decide_eq_true_eq]
  constructor
  · rintro ⟨⟨h1, h3⟩, hrest⟩
    refine ⟨s.takeWhile Char.isDigit,
      (fun x hx => List.mem_takeWhile_imp hx), h1, h3, ?_⟩
    rcases hrest with hr | hr
    · left
      conv_lhs => rw [← List.takeWhile_append_dropWhile (p := Char.isDigit) (l := s)]
      rw [hr, List.append_nil]
    · right
      conv_lhs => rw [← List.takeWhile_append_dropWhile (p := Char.isDigit) (l := s)]
      rw [hr]
  · rintro ⟨run, hall, h1, h3, hs | hs⟩
    · rw [hs]
      have t := takeWhile_all_eq Char.isDigit run hall
      rw [t.1, t.2]
      exact ⟨⟨h1, h3⟩, Or.inl rfl⟩
    · rw [hs]
      have t := takeWhile_append_eq Char.isDigit run '\n' [] hall (by decide)
      rw [t.1, t.2]
      exact ⟨⟨h1, h3⟩, Or.inr rfl⟩

lemma dotSplit_ne_nil (l : List Char) : dotSplit l ≠ [] := by
  cases l with
  | nil => exact fun h => by cases h
  | cons c rest =>
    unfold dotSplit
    by_cases hc : c = '.'
    · rw [if_pos hc]; exact fun h => by cases h
    · rw [if_neg hc]
      cases dotSplit rest with
      | nil => exact fun h => by cases h
      | cons h t => exact fun h => by cases h

lemma dotSplit_no_dot (run : List Char) (h : ∀ x ∈ run, ¬ x = '.') :
    dotSplit run = [run] := by
  induction run with
  | nil => rfl
  | cons c rest ih =>
    unfold dotSplit
    rw [if_neg (h c (List.mem_cons_self c rest))]
    rw [ih (fun x hx => h x (List.mem_cons_of_mem c hx))]

lemma dotSplit_append (run r : List Char) (h : ∀ x ∈ run, ¬ x = '.') :
    dotSplit (run ++ '.' :: r) = run :: dotSplit r := by
  induction run with
  | nil =>
    rw [List.nil_append]
    simp [dotSplit]
  | cons c rest ih =>
    rw [List.cons_append]
    simp only [dotSplit]
    rw [if_neg (h c (List.mem_cons_self c rest))]
    rw [ih (fun x hx => h x (List.mem_cons_of_mem c hx))]

lemma joinDots_dotSplit (l : List Char) : joinDots (dotSplit l) = l := by
  induction l with
  | nil => rfl
  | cons c rest ih =>
    unfold dotSplit
    by_cases hc : c = '.'
    · rw [if_pos hc]
      subst hc
      cases hds : dotSplit rest with
      | nil => exact absurd hds (dotSplit_ne_nil rest)
      | cons h t =>
        rw [hds] at ih
        show joinDots ([] :: h :: t) = '.' :: rest
        unfold joinDots
        rw [List.nil_append]
        rw [ih]
    · rw [if_neg hc]
      cases hds : dotSplit rest with
      | nil => exact absurd hds (dotSplit_ne_nil rest)
      | cons h t =>
        rw [hds] at ih
        cases t with
        | nil =>
          show joinDots [c :: h] = c :: rest
          unfold joinDots
          show c :: h = c :: rest
          unfold joinDots at ih
          rw [ih]
        | cons t1 t2 =>
          show joinDots ((c :: h) :: t1 :: t2) = c :: rest
          unfold joinDots
          rw [List.cons_append]
          show c :: (h ++ '.' :: joinDots (t1 :: t2)) = c :: rest
          have : joinDots (h :: t1 :: t2) = rest := ih
          unfold joinDots at this
          rw [this]

lemma strip_append_newline (x : List Char) :
    stripTrailingNewline (x ++ [ '\n' ]) = x := by
  unfold stripTrailingNewline
  rw [List.reverse_append]
  show (if '\n' = '\n' then x.reverse.reverse else x ++ [ '\n' ]) = x
  rw [if_pos rfl, List.reverse_reverse]

lemma strip_append_digits (X d : List Char)
    (hd : ∀ x ∈ d, Char.isDigit x = true) (hne : d ≠ []) :
    stripTrailingNewline (X ++ d) = X ++ d := by
  unfold stripTrailingNewline
  cases hdr : d.reverse with
  | nil => exact absurd (List.reverse_eq_nil_iff.mp hdr) hne
  | cons dl dt =>
    have hrev : (X ++ d).reverse = dl :: (dt ++ X.reverse) := by
      rw [List.reverse_append, hdr, List.cons_append]
    rw [hrev]
    have hdl : dl ∈ d := List.mem_reverse.mp (by rw [hdr]; exact List.mem_cons_self _ _)
    show (if dl = '\n' then (dt ++ X.reverse).reverse else X ++ d) = X ++ d
    rw [if_neg (digit_ne_newline dl (hd dl hdl))]

lemma strip_cases (l : List Char) :
    l = stripTrailingNewline l ∨ l = stripTrailingNewline l ++ [ '\n' ] := by
  unfold stripTrailingNewline
  cases hr : l.reverse with
  | nil => exact Or.inl rfl
  | cons c t =>
    dsimp only
    by_cases hc : c = '\n'
    · rw [if_pos hc]
      right
      conv_lhs => rw [← List.reverse_reverse l]
      rw [hr, hc]
      simp
    · rw [if_neg hc]
      exact Or.inl rfl

lemma isOctetRun_iff (l : List Char) :
    isOctetRun l = true ↔
      1 ≤ l.length ∧ l.length ≤ 3 ∧ ∀ x ∈ l, Char.isDigit x = true := by
  unfold isOctetRun
  simp [List.all_eq_true, and_assoc]

lemma loose_of_validate (s : String) (h : validate_ipv4 s = true) :
    loosePattern s = true := by
  unfold validate_ipv4 reMatchIpv4 at h
  cases h1 : matchOctetDot s.data with
  | none => rw [h1] at h; cases h
  | some s1 =>
    rw [h1] at h
    dsimp only at h
    cases h2 : matchOctetDot s1 with
    | none => rw [h2] at h; cases h
    | some s2 =>
      rw [h2] at h
      dsimp only at h
      cases h3 : matchOctetDot s2 with
      | none => rw [h3] at h; cases h
      | some s3 =>
        rw [h3] at h
        dsimp only at h
        obtain ⟨a, hadig, ha1, ha3, hsa⟩ := (matchOctetDot_some_iff _ _).mp h1
        obtain ⟨b, hbdig, hb1, hb3, hsb⟩ := (matchOctetDot_some_iff _ _).mp h2
        obtain ⟨c, hcdig, hc1, hc3, hsc⟩ := (matchOctetDot_some_iff _ _).mp h3
        obtain ⟨d, hddig, hd1, hd3, hd⟩ := (matchFinal_true_iff _).mp h
        have hchain : s.data = a ++ '.' :: (b ++ '.' :: (c ++ '.' :: s3)) := by
          rw [hsa, hsb, hsc]
        have hdne : d ≠ [] := by
          intro hnil
          rw [hnil] at hd1
          cases hd1
        have ia : isOctetRun a = true := (isOctetRun_iff a).mpr ⟨ha1, ha3, hadig⟩
        have ib : isOctetRun b = true := (isOctetRun_iff b).mpr ⟨hb1, hb3, hbdig⟩
        have ic : isOctetRun c = true := (isOctetRun_iff c).mpr ⟨hc1, hc3, hcdig⟩
        have idr : isOctetRun d = true := (isOctetRun_iff d).mpr ⟨hd1, hd3, hddig⟩
        have hsplit : dotSplit (a ++ '.' :: (b ++ '.' :: (c ++ '.' :: d))) =
            [a, b, c, d] := by
          rw [dotSplit_append a _ (fun x hx => digit_ne_dot x (hadig x hx))]
          rw [dotSplit_append b _ (fun x hx => digit_ne_dot x (hbdig x hx))]
          rw [dotSplit_append c _ (fun x hx => digit_ne_dot x (hcdig x hx))]
          rw [dotSplit_no_dot d (fun x hx => digit_ne_dot x (hddig x hx))]
        rcases hd with hd | hd
        · have hstrip : stripTrailingNewline s.data =
              a ++ '.' :: (b ++ '.' :: (c ++ '.' :: d)) := by
            rw [hchain, hd]
            have heq : a ++ '.' :: (b ++ '.' :: (c ++ '.' :: d)) =
                (a ++ '.' :: (b ++ '.' :: (c ++ [ '.' ]))) ++ d := by simp
            rw [heq]
            rw [strip_append_digits _ d hddig hdne]
          unfold loosePattern
          rw [hstrip, hsplit]
          simp [ia, ib, ic, idr]
        · have hchain2 : s.data =
              (a ++ '.' :: (b ++ '.' :: (c ++ '.' :: d))) ++ [ '\n' ] := by
            rw [hchain, hd]
            simp
          have hstrip : stripTrailingNewline s.data =
              a ++ '.' :: (b ++ '.' :: (c ++ '.' :: d)) := by
            rw [hchain2]
            exact strip_append_newline _
          unfold loosePattern
          rw [hstrip, hsplit]
          simp [ia, ib, ic, idr]

lemma validate_of_loose (s : String) (h : loosePattern s = true) :
    validate_ipv4 s = true := by
  unfold loosePattern at h
  dsimp only at h
  rw [Bool.and_eq_true, decide_eq_true_eq] at h
  obtain ⟨hlen, hall⟩ := h
  rcases hps : dotSplit (stripTrailingNewline s.data) with _ | ⟨a, _ | ⟨b, _ | ⟨c, _ | ⟨d, rest⟩⟩⟩⟩ <;>
    rw [hps] at hlen hall
  · cases hlen
  · cases hlen
  · cases hlen
  · cases hlen
  · have hrest : rest = [] := by
      simp only [List.length_cons] at hlen
      have : rest.length = 0 := by omega
      exact List.length_eq_zero.mp this
    subst hrest
    simp only [List.all_cons, List.all_nil, Bool.and_eq_true, Bool.and_true] at hall
    obtain ⟨ia, ib, ic, idr⟩ := hall
    obtain ⟨ha1, ha3, hadig⟩ := (isOctetRun_iff a).mp ia
    obtain ⟨hb1, hb3, hbdig⟩ := (isOctetRun_iff b).mp ib
    obtain ⟨hc1, hc3, hcdig⟩ := (isOctetRun_iff c).mp ic
    obtain ⟨hd1, hd3, hddig⟩ := (isOctetRun_iff d).mp idr
    have hjoin : stripTrailingNewline s.data =
        a ++ '.' :: (b ++ '.' :: (c ++ '.' :: d)) := by
      have hj := joinDots_dotSplit (stripTrailingNewline s.data)
      rw [hps] at hj
      rw [← hj]
      rfl
    have hA : ∀ tail : List Char,
        matchOctetDot (a ++ '.' :: (b ++ '.' :: (c ++ '.' :: tail))) =
          some (b ++ '.' :: (c ++ '.' :: tail)) := fun tail =>
      (matchOctetDot_some_iff _ _).mpr ⟨a, hadig, ha1, ha3, rfl⟩
    have hB : ∀ tail : List Char,
        matchOctetDot (b ++ '.' :: (c ++ '.' :: tail)) =
          some (c ++ '.' :: tail) := fun tail =>
      (matchOctetDot_some_iff _ _).mpr ⟨b, hbdig, hb1, hb3, rfl⟩
    have hC : ∀ tail : List Char,
        matchOctetDot (c ++ '.' :: tail) = some tail := fun tail =>
      (matchOctetDot_some_iff _ _).mpr ⟨c, hcdig, hc1, hc3, rfl⟩
    rcases strip_cases s.data with hcase | hcase
    · have hs2 : s.data = a ++ '.' :: (b ++ '.' :: (c ++ '.' :: d)) := by
        rw [hcase, hjoin]
      unfold validate_ipv4 reMatchIpv4
      rw [hs2, hA d]
      dsimp only
      rw [hB d]
      dsimp only
      rw [hC d]
      dsimp only
      exact (matchFinal_true_iff d).mpr ⟨d, hddig, hd1, hd3, Or.inl rfl⟩
    · have hs2 : s.data = a ++ '.' :: (b ++ '.' :: (c ++ '.' :: (d ++ [ '\n' ]))) := by
        rw [hcase, hjoin]
        simp
      unfold validate_ipv4 reMatchIpv4
      rw [hs2, hA (d ++ [ '\n' ])]
      dsimp only
      rw [hB (d ++ [ '\n' ])]
      dsimp only
      rw [hC (d ++ [ '\n' ])]
      dsimp only
      exact (matchFinal_true_iff _).mpr ⟨d, hddig, hd1, hd3, Or.inr rfl⟩

lemma foldl_argStep_mem (fs : FileSys) :
    ∀ (argVals : List String) (acc : List String × List String) (v : String),
      v ∈ (argVals.foldl (argStep fs) acc).2 → v ∈ acc.2 ∨ validate_ipv4 v = true := by
  intro argVals
  induction argVals with
  | nil => intro acc v hv; exact Or.inl hv
  | cons line rest ih =>
    intro acc v hv
    rw [List.foldl_cons] at hv
    rcases ih _ v hv with h | h
    · unfold argStep at h
      by_cases hl : validate_ipv4 line = true
      · rw [if_pos hl] at h
        rcases List.mem_append.mp h with h1 | h1
        · exact Or.inl h1
        · rw [List.mem_singleton] at h1
          subst h1
          exact Or.inr hl
      · rw [if_neg hl] at h
        cases hfl : fs line with
        | none => rw [hfl] at h; exact Or.inl h
        | some lines =>
          rw [hfl] at h
          rcases List.mem_append.mp h with h1 | h1
          · exact Or.inl h1
          · exact Or.inr (mem_ipv4_from_file_valid lines v h1)
    · exact Or.inr h

/-- C6 (amended): validate_ipv4 accepts a value if and only if, after
tolerating one trailing newline, it consists of exactly four
dot-separated runs of one to three decimal digits; the octet values are
NOT checked against the range 0-255.  Every value the per-argument list
population adds (a literal address, or an address read out of a file)
satisfies validate_ipv4 and hence this pattern. -/
theorem validate_ipv4_matches_loose_pattern :
    (∀ s : String, validate_ipv4 s = loosePattern s) ∧
    (∀ (fs : FileSys) (lst argVals : List String) (v : String),
       v ∈ (processArgList fs lst argVals).2 → v ∈ lst ∨ validate_ipv4 v = true) := by
  constructor
  · intro s
    by_cases h : validate_ipv4 s = true
    · rw [h, loose_of_validate s h]
    · have h2 : ¬ loosePattern s = true := fun hc => h (validate_of_loose s hc)
      rw [Bool.not_eq_true] at h h2
      rw [h, h2]
  · intro fs lst argVals v hv
    exact foldl_argStep_mem fs argVals ([], lst) v hv

theorem validate_ipv4_matches_loose_pattern_witness :
    loosePattern "999.12.0.7" = true ∧
    ("10.1.2.3" ∈ (["not-an-ip"] : List String) ∨ validate_ipv4 "10.1.2.3" = true) :=
  ⟨by rw [← validate_ipv4_matches_loose_pattern.1]; rfl,
   validate_ipv4_matches_loose_pattern.2 (fun _ => none) ["not-an-ip"] ["10.1.2.3"]
     "10.1.2.3" (by decide)⟩

lemma alookup_append {α : Type} (s : String) (l1 l2 : List (String × α)) :
    alookup s (l1 ++ l2) =
      match alookup s l1 with
      | some v => some v
      | none => alookup s l2 := by
  induction l1 with
  | nil => rfl
  | cons e t ih =>
    rw [List.cons_append]
    simp only [alookup]
    by_cases he : e.1 = s
    · rw [if_pos he, if_pos he]
    · rw [if_neg he, if_neg he, ih]

lemma alookup_none_not_mem {α : Type} (s : String) (l : List (String × α))
    (h : alookup s l = none) : s ∉ l.map Prod.fst := by
  induction l with
  | nil => intro hx; cases hx
  | cons e t ih =>
    unfold alookup at h
    by_cases he : e.1 = s
    · rw [if_pos he] at h; cases h
    · rw [if_neg he] at h
      intro hx
      rcases List.mem_cons.mp hx with hx | hx
      · exact he hx.symm
      · exact ih h hx

lemma aappend_keys (s : String) (row : List String)
    (l : List (String × List (List String))) :
    (aappend s row l).map Prod.fst = l.map Prod.fst := by
  unfold aappend
  rw [List.map_map]
  congr 1
  funext e
  by_cases he : e.1 = s
  · simp [he]
  · simp [he]

lemma alookup_aappend (k s : String) (row : List String)
    (l : List (String × List (List String))) :
    alookup k (aappend s row l) =
      if k = s then (alookup k l).map (fun v => v ++ [row])
      else alookup k l := by
  induction l with
  | nil =>
    by_cases hk : k = s
    · rw [if_pos hk]; rfl
    · rw [if_neg hk]; rfl
  | cons e t ih =>
    unfold aappend at ih ⊢
    rw [List.map_cons]
    by_cases he : e.1 = s
    · rw [if_pos he]
      unfold alookup
      by_cases hek : e.1 = k
      · rw [if_pos hek, if_pos hek]
        rw [if_pos (by rw [← hek, he])]
        rfl
      · rw [if_neg hek, if_neg hek, ih]
    · rw [if_neg he]
      unfold alookup
      by_cases hek : e.1 = k
      · rw [if_pos hek, if_pos hek]
        rw [if_neg (by rw [← hek]; exact he)]
      · rw [if_neg hek, if_neg hek, ih]

lemma mem_aappend {e' : String × List (List String)} (s : String) (row : List String)
    (l : List (String × List (List String))) (h : e' ∈ aappend s row l) :
    ∃ e ∈ l, (¬ e.1 = s ∧ e' = e) ∨ (e.1 = s ∧ e' = (e.1, e.2 ++ [row])) := by
  unfold aappend at h
  obtain ⟨e, hel, hee⟩ := List.mem_map.mp h
  refine ⟨e, hel, ?_⟩
  by_cases he : e.1 = s
  · right
    rw [if_pos he] at hee
    exact ⟨he, hee.symm⟩
  · left
    rw [if_neg he] at hee
    exact ⟨he, hee.symm⟩

lemma foldl_invariant {α β : Type} (step : β → α → β) (P : β → Prop)
    (hstep : ∀ acc t, P acc → P (step acc t)) :
    ∀ (ts : List α) (acc : β), P acc → P (ts.foldl step acc) := by
  intro ts
  induction ts with
  | nil => intro acc h; exact h
  | cons t ts ih => intro acc h; exact ih _ (hstep acc t h)

lemma makeRow_getElem (columns : List String) (cp : Option ColorProfile)
    (t : Transaction) (ns : Bool) (j : Nat) (hj : j < columns.length) :
    (makeRow columns cp t ns)[j]? = some (buildCell cp t ns columns[j]) := by
  unfold makeRow
  rw [List.getElem?_map, List.getElem?_eq_getElem hj]
  rfl

lemma buildCell_sender (cp : Option ColorProfile) (t : Transaction) (ns : Bool) :
    buildCell cp t ns "sender" = if ns then t.sender.value else "" := rfl

lemma rowStep_keys_nodup (sender_lists target_lists : Option Lists)
    (cp : Option ColorProfile) (columns : List String)
    (acc : List (String × List (List String))) (t : Transaction)
    (h : (acc.map Prod.fst).Nodup) :
    ((rowStep sender_lists target_lists cp columns acc t).map Prod.fst).Nodup := by
  unfold rowStep
  by_cases hp : passesFilters sender_lists target_lists t = true
  · rw [if_pos hp]
    dsimp only
    cases hlk : alookup t.sender.value acc with
    | none =>
      simp only [Option.isNone_none, if_true]
      rw [List.map_append]
      simp only [List.map_cons, List.map_nil]
      rw [List.nodup_append]
      exact ⟨h, List.nodup_singleton _,
        by simpa [List.disjoint_right] using alookup_none_not_mem _ acc hlk⟩
    | some v =>
      simp only [Option.isNone_some, Bool.false_eq_true, if_false]
      rw [aappend_keys]
      exact h
  · rw [if_neg hp]
    exact h

lemma buildRowdict_keys_nodup (sender_lists target_lists : Option Lists)
    (cp : Option ColorProfile) (columns : List String) (ts : List Transaction) :
    ((buildRowdict sender_lists target_lists cp columns ts).map Prod.fst).Nodup := by
  unfold buildRowdict
  exact foldl_invariant _ (fun acc => (acc.map Prod.fst).Nodup)
    (rowStep_keys_nodup sender_lists target_lists cp columns) ts [] List.nodup_nil

lemma rowStep_cellsOk (sender_lists target_lists : Option Lists)
    (cp : Option ColorProfile) (columns : List String)
    (acc : List (String × List (List String))) (t : Transaction)
    (h : ∀ e ∈ acc, senderCellsOk columns e) :
    ∀ e ∈ rowStep sender_lists target_lists cp columns acc t,
      senderCellsOk columns e := by
  unfold rowStep
  by_cases hp : passesFilters sender_lists target_lists t = true
  · rw [if_pos hp]
    dsimp only
    cases hlk : alookup t.sender.value acc with
    | none =>
      simp only [Option.isNone_none, if_true]
      intro e he
      rcases List.mem_append.mp he with he | he
      · exact h e he
      · rw [List.mem_singleton] at he
        subst he
        refine ⟨by simp, ?_⟩
        intro j hj hcol
        constructor
        · intro r0 hr0
          simp only [List.head?_cons] at hr0
          rw [← Option.some.inj hr0]
          rw [makeRow_getElem columns cp t true j hj, hcol, buildCell_sender]
          rfl
        · intro r hr
          simp only [List.tail_cons] at hr
          cases hr
    | some v =>
      simp only [Option.isNone_some, Bool.false_eq_true, if_false]
      intro e' he'
      obtain ⟨e, hel, hcase⟩ := mem_aappend _ _ acc he'
      rcases hcase with ⟨hne, heq⟩ | ⟨hkey, heq⟩
      · rw [heq]
        exact h e hel
      · rw [heq]
        obtain ⟨hne0, hcells⟩ := h e hel
        rcases h2 : e.2 with _ | ⟨x, xs⟩
        · exact absurd h2 hne0
        · refine ⟨by simp [h2], ?_⟩
          intro j hj hcol
          obtain ⟨hhead, htail⟩ := hcells j hj hcol
          constructor
          · intro r0 hr0
            simp only [h2, List.cons_append, List.head?_cons] at hr0
            rw [← Option.some.inj hr0]
            exact hhead x (by rw [h2]; rfl)
          · intro r hr
            simp only [h2, List.cons_append, List.tail_cons] at hr
            rcases List.mem_append.mp hr with hr1 | hr1
            · exact htail r (by rw [h2]; exact hr1)
            · rw [List.mem_singleton] at hr1
              subst hr1
              rw [makeRow_getElem columns cp t false j hj, hcol, buildCell_sender]
              rfl
  · rw [if_neg hp]
    exact h

lemma buildRowdict_cellsOk (sender_lists target_lists : Option Lists)
    (cp : Option ColorProfile) (columns : List String) (ts : List Transaction) :
    ∀ e ∈ buildRowdict sender_lists target_lists cp columns ts,
      senderCellsOk columns e := by
  unfold buildRowdict
  exact foldl_invariant _ (fun acc => ∀ e ∈ acc, senderCellsOk columns e)
    (rowStep_cellsOk sender_lists target_lists cp columns) ts []
    (fun e he => absurd he (List.not_mem_nil e))

lemma rowStep_size (sender_lists target_lists : Option Lists)
    (cp : Option ColorProfile) (columns : List String)
    (acc : List (String × List (List String))) (t : Transaction) (s : String) :
    optLen (alookup s (rowStep sender_lists target_lists cp columns acc t)) =
      optLen (alookup s acc) +
        (if passesFilters sender_lists target_lists t &&
            decide (t.sender.value = s) then 1 else 0) := by
  unfold rowStep
  by_cases hp : passesFilters sender_lists target_lists t = true
  · rw [if_pos hp]
    dsimp only
    cases hlk : alookup t.sender.value acc with
    | none =>
      simp only [Option.isNone_none, if_true]
      rw [alookup_append]
      by_cases hs : t.sender.value = s
      · rw [hs] at hlk
        rw [hlk]
        simp [alookup, hs, hp, optLen]
      · have hdec : decide (t.sender.value = s) = false := by
          simp [hs]
        cases hsa : alookup s acc with
        | some v => simp [hsa, hp, hdec, optLen]
        | none => simp [hsa, alookup, hs, hp, hdec, optLen]
    | some v =>
      simp only [Option.isNone_some, Bool.false_eq_true, if_false]
      rw [alookup_aappend]
      by_cases hs : s = t.sender.value
      · rw [if_pos hs, hs, hlk]
        have hdec : decide (t.sender.value = s) = true := by
          simp [hs.symm]
        simp [hp, hdec, optLen]
      · rw [if_neg hs]
        have hdec : decide (t.sender.value = s) = false := by
          simp
          exact fun hh => hs hh.symm
        simp [hp, hdec]
  · rw [if_neg hp]
    rw [Bool.not_eq_true] at hp
    simp [hp]

lemma foldl_rowStep_size (sender_lists target_lists : Option Lists)
    (cp : Option ColorProfile) (columns : List String) :
    ∀ (ts : List Transaction) (acc : List (String × List (List String))) (s : String),
      optLen (alookup s (ts.foldl (rowStep sender_lists target_lists cp columns) acc)) =
        optLen (alookup s acc) +
          (ts.filter (fun t => passesFilters sender_lists target_lists t &&
            decide (t.sender.value = s))).length := by
  intro ts
  induction ts with
  | nil => intro acc s; simp
  | cons t ts ih =>
    intro acc s
    rw [List.foldl_cons, ih, rowStep_size]
    rw [List.filter_cons]
    by_cases hc : (passesFilters sender_lists target_lists t &&
        decide (t.sender.value = s)) = true
    · rw [if_pos hc, if_pos hc]
      simp only [List.length_cons]
      omega
    · rw [Bool.not_eq_true] at hc
      rw [hc]
      simp

lemma buildRowdict_size (sender_lists target_lists : Option Lists)
    (cp : Option ColorProfile) (columns : List String) (ts : List Transaction)
    (s : String) :
    optLen (alookup s (buildRowdict sender_lists target_lists cp columns ts)) =
      (ts.filter (fun t => passesFilters sender_lists target_lists t &&
        decide (t.sender.value = s))).length := by
  unfold buildRowdict
  rw [foldl_rowStep_size]
  simp [alookup, optLen]

lemma rowsFromRowdict_none (rd : List (String × List (List String))) :
    rowsFromRowdict none rd = (rd.map Prod.snd).flatten := by
  have haux : ∀ (rd : List (String × List (List String)))
      (acc : List (List String)) (n : Nat),
      (rd.foldl (fun acc2 e => (acc2.1 ++ e.2, acc2.2 + 1)) (acc, n)).1 =
        acc ++ (rd.map Prod.snd).flatten := by
    intro rd
    induction rd with
    | nil => intro acc n; simp
    | cons e rd ih =>
      intro acc n
      rw [List.foldl_cons]
      rw [ih]
      simp [List.append_assoc]
  show (rd.foldl (fun acc2 e => (acc2.1 ++ e.2, acc2.2 + 1))
    (([] : List (List String)), 0)).1 = (rd.map Prod.snd).flatten
  rw [haux]
  rfl

/-- C8: with no color profile, get_output renders exactly one header
per requested column, namely COL_MAP[col], in the caller-specified
order, and its data rows are the concatenation of per-sender blocks:
the rowdict keys (the distinct senders) carry no duplicates, each block
is nonempty, wherever the requested columns say "sender" the first row
of a block carries the sender ip and the later rows carry the empty
cell, and the size of a sender's block equals the number of that
sender's surviving transactions — so all of one sender's transactions
appear as consecutive rows. -/
theorem get_output_headers_and_grouping (db_session : List Transaction)
    (sender_lists target_lists : Option Lists) (columns : List String)
    (hne : get_transactions db_session ≠ [])
    (hcols : ∀ c ∈ columns, c ∈ colKeys) :
    get_output db_session sender_lists target_lists none columns =
      Output.table (columns.map colMapGet)
        (((buildRowdict sender_lists target_lists none columns
            (get_transactions db_session)).map Prod.snd).flatten) ∧
    ((buildRowdict sender_lists target_lists none columns
        (get_transactions db_session)).map Prod.fst).Nodup ∧
    (∀ e ∈ buildRowdict sender_lists target_lists none columns
        (get_transactions db_session), senderCellsOk columns e) ∧
    (∀ s : String,
      optLen (alookup s (buildRowdict sender_lists target_lists none columns
          (get_transactions db_session))) =
        ((get_transactions db_session).filter
          (fun t => passesFilters sender_lists target_lists t &&
            decide (t.sender.value = s))).length) := by
  refine ⟨?_, buildRowdict_keys_nodup _ _ _ _ _,
    buildRowdict_cellsOk _ _ _ _ _,
    fun s => buildRowdict_size _ _ _ _ _ s⟩
  unfold get_output
  rw [if_neg hne]
  unfold tableFromRowdict tabulate
  rw [rowsFromRowdict_none]

theorem get_output_headers_and_grouping_witness :
    ((buildRowdict none none none COL_ORDER
      (get_transactions
        [Transaction.mk (Host.mk "10.0.0.5" (some "aa:aa") none none)
           (Host.mk "10.0.0.9" none none none) 3 true false,
         Transaction.mk (Host.mk "10.0.0.5" (some "aa:aa") none none)
           (Host.mk "10.0.0.7" none none none) 1 false true,
         Transaction.mk (Host.mk "10.0.0.6" none none none)
           (Host.mk "10.0.0.9" none none none) 2 false false])).map Prod.fst).Nodup :=
  (get_output_headers_and_grouping _ none none COL_ORDER
    (by decide) (by decide)).2.1

end Eavesarp
